import Mathlib

/-!
A verification development for the `@macroforge/shared` package: a shallow
embedding of its three modules (`external-manifest.ts`, `config.ts`,
`macro-imports.ts`) together with theorems about the embedded operations.

Modelling conventions:
* JavaScript exceptions are `Except Unit`; a thrown value is `Except.error ()`.
* The process-wide mutable state (the manifest cache and `globalThis.require`)
  is an explicit `St` record threaded through the functions; each stateful
  operation additionally returns a trace of loader-interaction `Event`s so
  that "the loader was invoked n times" is expressible.
* JavaScript `Map` objects are association lists in insertion order, with
  in-place value update on an existing key (`mapSet`), matching `Map.set`.
* Directories are abstract segment lists, innermost segment first, so the
  parent directory is the tail; `[]` is the filesystem root (where
  `path.dirname` returns its argument unchanged).
* The field `export` of `DecoratorManifestEntry` is spelled `exportName`
  because `export` is a reserved word in Lean.
-/

namespace MacroforgeShared

/-! ## Manifest data model (`external-manifest.ts`, types from `macroforge`) -/

structure MacroManifestEntry where
  name : String
  description : String
deriving DecidableEq, Repr

structure DecoratorManifestEntry where
  exportName : String
  module : String
  description : String
deriving DecidableEq, Repr

structure MacroManifest where
  macros : List MacroManifestEntry
  decorators : List DecoratorManifestEntry
deriving DecidableEq, Repr

/-- A loaded module's exported surface, as far as `getExternalManifest`
inspects it: whether `__macroforgeGetManifest` is a function, and if so the
outcome of invoking it (`Except.error ()` models the accessor throwing). -/
structure Pkg where
  getManifest : Option (Except Unit MacroManifest)

/-- Values that may sit in `globalThis.require`: either a require created by
`createRequire(base)` or some other pre-existing value. -/
inductive ReqVal where
  | scoped (base : String)
  | other (n : Nat)
deriving DecidableEq, Repr

/-- A require function (`RequireFunction` in the source): calling it loads a
module; it may additionally expose a `.resolve` capability. -/
structure RequireFunction where
  call : String → Except Unit Pkg
  resolve : Option (String → Except Unit String)

/-- The ambient world: the default require built from `import.meta.url`, and
the behaviour of `createRequire(base)` applied to a module id.  The third
argument to `scopedLoad` is the value of `globalThis.require` during the
nested load (Deno's CJS compat layer reads it), so a theorem can observe
what the ambient loader was while the load ran. -/
structure Env where
  defaultRequire : RequireFunction
  scopedLoad : String → String → Option ReqVal → Except Unit Pkg

/-- Process-wide mutable state: the manifest cache and `globalThis.require`
(`none` models the property being unset). -/
structure St where
  cache : List (String × Option MacroManifest)
  globalRequire : Option ReqVal

/-- Observable loader interactions, for counting invocations. -/
inductive Event where
  | loadCall (id : String)
  | resolveCall (id : String)
  | scopedLoadCall (base id : String) (ambient : Option ReqVal)
  | accessorCall (id : String)
deriving DecidableEq, Repr

/-- `String.prototype.toLowerCase()` (ASCII case folding, which covers the
comparisons this package performs); defined by structural recursion over the
character list so that it evaluates by kernel reduction. -/
def jsToLower (s : String) : String :=
  String.mk (s.toList.map Char.toLower)

/-- `externalManifestCache.has`/`get` combined: first entry with the key. -/
def lookupCache (cache : List (String × Option MacroManifest)) (key : String) :
    Option (Option MacroManifest) :=
  (cache.find? (fun e => e.1 == key)).map (fun e => e.2)

/-- `clearExternalManifestCache()`: discards all entries. -/
def clearExternalManifestCache (s : St) : St :=
  { s with cache := [] }

/-- The body of the `try` block of `getExternalManifest` up to obtaining the
loaded module: resolve-refined load when `req.resolve` is available
(temporarily substituting `globalThis.require` with the scoped require and
restoring the previous value in a `finally`), else a plain `req(modulePath)`. -/
def attemptLoad (env : Env) (modulePath : String) (req : RequireFunction) (s : St) :
    Except Unit Pkg × St × List Event :=
  match req.resolve with
  | some resolveFn =>
      match resolveFn modulePath with
      | Except.error e => (Except.error e, s, [Event.resolveCall modulePath])
      | Except.ok resolvedPath =>
          let prevRequire := s.globalRequire
          let s1 : St := { s with globalRequire := some (ReqVal.scoped resolvedPath) }
          let pkg := env.scopedLoad resolvedPath resolvedPath s1.globalRequire
          let s2 : St := { s1 with globalRequire := prevRequire }
          (pkg, s2,
           [Event.resolveCall modulePath,
            Event.scopedLoadCall resolvedPath resolvedPath
              (some (ReqVal.scoped resolvedPath))])
  | none => (req.call modulePath, s, [Event.loadCall modulePath])

/-- The pure outcome of the load attempt (it does not depend on the state). -/
def loadOutcome (env : Env) (modulePath : String) (req : RequireFunction) :
    Except Unit Pkg :=
  match req.resolve with
  | some resolveFn =>
      match resolveFn modulePath with
      | Except.error e => Except.error e
      | Except.ok resolvedPath =>
          env.scopedLoad resolvedPath resolvedPath (some (ReqVal.scoped resolvedPath))
  | none => req.call modulePath

/-- Whether the load attempt for `modulePath` raises an error (module missing,
resolution failure, or the manifest accessor throwing).  A module that loads
but lacks the accessor is not an error, merely not-found. -/
def loadErrored (env : Env) (modulePath : String) (requireFn : Option RequireFunction) :
    Bool :=
  match loadOutcome env modulePath (requireFn.getD env.defaultRequire) with
  | Except.error _ => true
  | Except.ok pkg =>
      match pkg.getManifest with
      | some (Except.error _) => true
      | _ => false

/-- `getExternalManifest(modulePath, requireFn?)`: cache lookup first; on a
miss, attempt the load, invoke the manifest accessor when present, cache the
result (the manifest, or `none` as the absent marker) and return it.  Any
error is caught and converted to the absent outcome. -/
def getExternalManifest (env : Env) (modulePath : String)
    (requireFn : Option RequireFunction) (s : St) :
    Option MacroManifest × St × List Event :=
  match lookupCache s.cache modulePath with
  | some cached => (cached, s, [])
  | none =>
      let req := requireFn.getD env.defaultRequire
      match attemptLoad env modulePath req s with
      | (Except.error _, s1, ev) =>
          (none, { s1 with cache := (modulePath, none) :: s1.cache }, ev)
      | (Except.ok pkg, s1, ev) =>
          match pkg.getManifest with
          | none =>
              (none, { s1 with cache := (modulePath, none) :: s1.cache }, ev)
          | some (Except.error _) =>
              (none, { s1 with cache := (modulePath, none) :: s1.cache },
               ev ++ [Event.accessorCall modulePath])
          | some (Except.ok manifest) =>
              (some manifest,
               { s1 with cache := (modulePath, some manifest) :: s1.cache },
               ev ++ [Event.accessorCall modulePath])

/-- `getExternalMacroInfo(macroName, modulePath, requireFn?)`. -/
def getExternalMacroInfo (env : Env) (macroName : String) (modulePath : String)
    (requireFn : Option RequireFunction) (s : St) :
    Option MacroManifestEntry × St × List Event :=
  match getExternalManifest env modulePath requireFn s with
  | (none, s1, ev) => (none, s1, ev)
  | (some manifest, s1, ev) =>
      (manifest.macros.find? (fun m => jsToLower m.name == jsToLower macroName), s1, ev)

/-- `getExternalDecoratorInfo(decoratorName, modulePath, requireFn?)`. -/
def getExternalDecoratorInfo (env : Env) (decoratorName : String) (modulePath : String)
    (requireFn : Option RequireFunction) (s : St) :
    Option DecoratorManifestEntry × St × List Event :=
  match getExternalManifest env modulePath requireFn s with
  | (none, s1, ev) => (none, s1, ev)
  | (some manifest, s1, ev) =>
      (manifest.decorators.find?
        (fun d => jsToLower d.exportName == jsToLower decoratorName), s1, ev)

/-! ## Configuration locator and loader (`config.ts`) -/

/-- Return type style for generated macro code. -/
inductive ReturnTypesMode where
  | vanilla
  | custom
  | effect
deriving DecidableEq, Repr

/-- Result from parsing a config file (`ConfigLoadResult`). -/
structure ConfigLoadResult where
  keepDecorators : Bool
  generateConvenienceConst : Bool
  hasForeignTypes : Bool
  foreignTypeCount : Nat
  returnTypes : ReturnTypesMode
deriving DecidableEq, Repr

/-- A filesystem path, as the pair `path.join(dir, filename)` of a directory
(abstract segment list, innermost first) and a filename. -/
abbrev FilePathPair := List String × String

/-- `MacroConfig`: optional fields left unset are `none`. -/
structure MacroConfig where
  keepDecorators : Bool
  generateConvenienceConst : Option Bool := none
  configPath : Option FilePathPair := none
  hasForeignTypes : Option Bool := none
  returnTypes : Option ReturnTypesMode := none
deriving DecidableEq, Repr

/-- `ConfigLoader`: may throw (`Except.error ()`). -/
abbrev ConfigLoader := String → FilePathPair → Except Unit ConfigLoadResult

/-- The filesystem interface used by `config.ts`: `fs.existsSync` on a joined
path, and `fs.readFileSync` (which may throw). -/
structure FileSystem where
  hasFile : List String → String → Bool
  readFile : List String → String → Except Unit String

/-- Supported config file names in order of precedence (`CONFIG_FILES`). -/
def CONFIG_FILES : List String :=
  ["macroforge.config.ts", "macroforge.config.mts", "macroforge.config.js",
   "macroforge.config.mjs", "macroforge.config.cjs"]

/-- `findConfigFile(startDir)`: walk upward; in each directory try the
candidates in precedence order, then stop at a `package.json` boundary, then
move to the parent; at the root (`[]`, where the parent equals the current
directory) stop with not-found. -/
def findConfigFile (fsys : FileSystem) : List String → Option FilePathPair
  | [] =>
      match CONFIG_FILES.find? (fun filename => fsys.hasFile [] filename) with
      | some filename => some ([], filename)
      | none => none
  | seg :: rest =>
      match CONFIG_FILES.find? (fun filename => fsys.hasFile (seg :: rest) filename) with
      | some filename => some (seg :: rest, filename)
      | none =>
          if fsys.hasFile (seg :: rest) "package.json" then none
          else findConfigFile fsys rest

/-- `loadMacroConfig(startDir, loadConfigFn?)`: locate the config file; with a
loader, read the file and invoke the loader, mapping its result onto the
record; on any error, or with no loader, fall back to the defaults plus the
discovered path; with no config file, return the plain defaults. -/
def loadMacroConfig (fsys : FileSystem) (startDir : List String)
    (loadConfigFn : Option ConfigLoader) : MacroConfig :=
  let fallback : MacroConfig := { keepDecorators := false }
  match findConfigFile fsys startDir with
  | none => fallback
  | some configPath =>
      match loadConfigFn with
      | some loadFn =>
          (match fsys.readFile configPath.1 configPath.2 with
           | Except.error _ => { fallback with configPath := some configPath }
           | Except.ok content =>
               match loadFn content configPath with
               | Except.error _ => { fallback with configPath := some configPath }
               | Except.ok result =>
                   { keepDecorators := result.keepDecorators
                     generateConvenienceConst := some result.generateConvenienceConst
                     configPath := some configPath
                     hasForeignTypes := some result.hasForeignTypes
                     returnTypes := some result.returnTypes })
      | none => { fallback with configPath := some configPath }

/-! ## Macro import comment parser (`macro-imports.ts`)

The source uses the regular expression
`\/\*\*\s*import\s+macro\s*\{([^}]+)\}\s*from\s*["\x27]([^"\x27]+)["\x27]`
with the `g` and `i` flags.  Every quantified atom in this pattern is
followed by a token the atom itself cannot match (`\s*` before a letter,
`[^}]+` before the brace, `[^"\x27]+` before a quote), so JavaScript's
backtracking search is equivalent to the deterministic maximal-munch
matcher implemented below; the `g`-flag `exec` loop is the leftmost-match
scan `execLoop`, whose fuel (one unit per character plus one) cannot run
out because every match consumes at least one character. -/

/-- JavaScript's `\s` character class (WhiteSpace plus LineTerminator). -/
def isJsSpace (c : Char) : Bool :=
  c == ' ' || c == '\t' || c == '\n' || c == '\r' ||
  c == '\x0b' || c == '\x0c' || c == '\u00A0' || c == '\u1680' ||
  ('\u2000' ≤ c && c ≤ '\u200A') || c == '\u2028' || c == '\u2029' ||
  c == '\u202F' || c == '\u205F' || c == '\u3000' || c == '\uFEFF'

/-- Case-insensitive character comparison, for the regex `i` flag. -/
def charCI (a b : Char) : Bool :=
  a.toLower == b.toLower

/-- Match a literal (case-insensitively), returning the rest of the input. -/
def matchLitCI : List Char → List Char → Option (List Char)
  | [], l => some l
  | _ :: _, [] => none
  | p :: ps, c :: cs => if charCI p c then matchLitCI ps cs else none

/-- Match one specific character. -/
def matchChar (ch : Char) : List Char → Option (List Char)
  | [] => none
  | c :: cs => if c == ch then some cs else none

/-- `\s+`: at least one whitespace character, maximal munch. -/
def matchSpaces1 : List Char → Option (List Char)
  | [] => none
  | c :: cs => if isJsSpace c then some (cs.dropWhile isJsSpace) else none

/-- A maximal nonempty run of characters satisfying `p` (for `([^x]+)`),
returning the captured run and the rest. -/
def takeWhile1 (p : Char → Bool) : List Char → Option (List Char × List Char)
  | [] => none
  | c :: cs => if p c then some (c :: cs.takeWhile p, cs.dropWhile p) else none

/-- One of the two quote characters (`["\x27]`). -/
def matchQuote : List Char → Option (List Char)
  | [] => none
  | c :: cs => if c == '"' || c == '\'' then some cs else none

/-- Attempt the import-comment pattern at the start of the input; on success
return the raw identifier-list capture, the module-path capture, and the rest
of the input after the match. -/
def matchImportComment (l : List Char) : Option (String × String × List Char) :=
  (matchLitCI ['/', '*', '*'] l).bind fun l1 =>
  (matchLitCI "import".toList (l1.dropWhile isJsSpace)).bind fun l2 =>
  (matchSpaces1 l2).bind fun l3 =>
  (matchLitCI "macro".toList l3).bind fun l4 =>
  (matchChar '{' (l4.dropWhile isJsSpace)).bind fun l5 =>
  (takeWhile1 (fun c => c != '}') l5).bind fun names =>
  (matchChar '}' names.2).bind fun l6 =>
  (matchLitCI "from".toList (l6.dropWhile isJsSpace)).bind fun l7 =>
  (matchQuote (l7.dropWhile isJsSpace)).bind fun l8 =>
  (takeWhile1 (fun c => c != '"' && c != '\'') l8).bind fun path =>
  (matchQuote path.2).bind fun l9 =>
  some (String.mk names.1, String.mk path.1, l9)

/-- Leftmost match: try the pattern at each successive start position. -/
def findNextMatch : List Char → Option (String × String × List Char)
  | [] => none
  | c :: cs =>
      match matchImportComment (c :: cs) with
      | some r => some r
      | none => findNextMatch cs

/-- The `g`-flag `exec` loop: collect `(namesCapture, modulePath)` for each
successive match, resuming after the end of the previous match. -/
def execLoop : Nat → List Char → List (String × String)
  | 0, _ => []
  | Nat.succ fuel, l =>
      match findNextMatch l with
      | none => []
      | some (names, path, rest) => (names, path) :: execLoop fuel rest

/-- All matches of the pattern in the text, in document order. -/
def execMatches (text : String) : List (String × String) :=
  execLoop (text.toList.length + 1) text.toList

/-- JavaScript `String.prototype.split(",")`. -/
def splitComma : List Char → List (List Char)
  | [] => [[]]
  | c :: rest =>
      match splitComma rest, c == ',' with
      | groups, true => [] :: groups
      | [], false => [[c]]
      | g :: gs, false => (c :: g) :: gs

/-- JavaScript `String.prototype.trim()`. -/
def jsTrim (l : List Char) : String :=
  String.mk (((l.dropWhile isJsSpace).reverse.dropWhile isJsSpace).reverse)

/-- `match[1].split(",").map((n) => n.trim()).filter(Boolean)`. -/
def namesOf (raw : String) : List String :=
  ((splitComma raw.toList).map jsTrim).filter (fun n => !n.isEmpty)

/-- `Map.set`: update the value in place when the key exists (keeping the
original insertion position), otherwise append the new entry. -/
def mapSet (m : List (String × String)) (key value : String) :
    List (String × String) :=
  if m.any (fun e => e.1 == key) then
    m.map (fun e => if e.1 == key then (key, value) else e)
  else m ++ [(key, value)]

/-- `Map.get`: value of the entry with the given key, if any. -/
def mapGet (m : List (String × String)) (key : String) : Option String :=
  (m.find? (fun e => e.1 == key)).map (fun e => e.2)

/-- `parseMacroImportComments(text)`: for each match in document order, map
every trimmed nonempty identifier to the matched module path. -/
def parseMacroImportComments (text : String) : List (String × String) :=
  (execMatches text).foldl
    (fun imports mt =>
      (namesOf mt.1).foldl (fun imp n => mapSet imp n mt.2) imports)
    []

/-- The individual `imports.set(name, modulePath)` calls performed by
`parseMacroImportComments`, flattened in execution (document) order. -/
def parseAssignments (text : String) : List (String × String) :=
  ((execMatches text).map
    (fun mt => (namesOf mt.1).map (fun n => (n, mt.2)))).flatten

/-- Fold a sequence of `Map.set` calls over a map. -/
def applyAssignments (m0 : List (String × String))
    (as : List (String × String)) : List (String × String) :=
  as.foldl (fun m kv => mapSet m kv.1 kv.2) m0

/-! ## Composite helper (`index.ts`) -/

/-- `manifest?.decorators.map((d) => d.module) ?? []`. -/
def manifestDecoratorModules : Option MacroManifest → List String
  | some manifest => manifest.decorators.map (fun d => d.module)
  | none => []

/-- `new Set(...)` insertion: keep each element on first sight only. -/
def dedupFirstAux (seen : List String) : List String → List String
  | [] => []
  | x :: xs =>
      if x ∈ seen then dedupFirstAux seen xs
      else x :: dedupFirstAux (x :: seen) xs

/-- `[...new Set(l)]`: distinct elements in first-occurrence order. -/
def dedupFirst (l : List String) : List String :=
  dedupFirstAux [] l

/-- The `flatMap` over module paths in `collectExternalDecoratorModules`,
with the cache state threaded through the successive
`getExternalManifest` calls. -/
def collectGo (env : Env) (requireFn : Option RequireFunction) :
    List String → St → List String × St
  | [], s => ([], s)
  | p :: rest, s =>
      let r := getExternalManifest env p requireFn s
      let restRes := collectGo env requireFn rest r.2.1
      (manifestDecoratorModules r.1 ++ restRes.1, restRes.2)

/-- `collectExternalDecoratorModules(code, requireFn?)`. -/
def collectExternalDecoratorModules (env : Env) (code : String)
    (requireFn : Option RequireFunction) (s : St) : List String × St :=
  let imports := parseMacroImportComments code
  let modulePaths := dedupFirst (imports.map (fun kv => kv.2))
  collectGo env requireFn modulePaths s

/-! ## Concrete fixtures used by the witness theorems -/

def sampleManifest : MacroManifest :=
  { macros := [{ name := "JSON", description := "derive json" }],
    decorators := [{ exportName := "hiddenController",
                     module := "hidden-controller",
                     description := "hides" }] }

def samplePkg : Pkg :=
  { getManifest := some (Except.ok sampleManifest) }

/-- A require function exposing `.resolve`; its direct call records nothing
interesting, and resolution prepends an absolute prefix. -/
def sampleRequire : RequireFunction :=
  { call := fun _ => Except.ok samplePkg,
    resolve := some (fun p => Except.ok ("/abs/" ++ p)) }

/-- A require function without `.resolve` whose every load throws. -/
def failRequire : RequireFunction :=
  { call := fun _ => Except.error (),
    resolve := none }

def sampleEnv : Env :=
  { defaultRequire := failRequire,
    scopedLoad := fun _ _ _ => Except.ok samplePkg }

def emptySt : St :=
  { cache := [], globalRequire := none }

def preloadedSt : St :=
  { cache := [("@playground/macro", some sampleManifest)], globalRequire := none }

def lastWinsExample : String :=
  "/** import macro {useThing} from \"package-a\" */ x /** import macro {useThing} from \"package-b\" */"

/-- A filesystem with both a `.ts` and a `.js` config variant in the start
directory, and failing reads. -/
def sampleFs : FileSystem :=
  { hasFile := fun dir f =>
      dir == ["sub", "proj"] &&
        (f == "macroforge.config.ts" || f == "macroforge.config.js"),
    readFile := fun _ _ => Except.error () }

/-- A filesystem with no config file anywhere and no boundary marker. -/
def bareFs : FileSystem :=
  { hasFile := fun _ _ => false,
    readFile := fun _ _ => Except.ok "" }

def sampleLoader : ConfigLoader :=
  fun _ _ => Except.error ()

/-! ## Derived descriptions of a cache-miss call, used to state lemmas -/

/-- The result a cache-miss call computes and caches. -/
def freshResult (env : Env) (modulePath : String)
    (requireFn : Option RequireFunction) : Option MacroManifest :=
  match loadOutcome env modulePath (requireFn.getD env.defaultRequire) with
  | Except.error _ => none
  | Except.ok pkg =>
      match pkg.getManifest with
      | some (Except.ok m) => some m
      | _ => none

/-- The loader-interaction events of one load attempt. -/
def attemptEvents (modulePath : String) (req : RequireFunction) : List Event :=
  match req.resolve with
  | some resolveFn =>
      match resolveFn modulePath with
      | Except.error _ => [Event.resolveCall modulePath]
      | Except.ok rp =>
          [Event.resolveCall modulePath,
           Event.scopedLoadCall rp rp (some (ReqVal.scoped rp))]
  | none => [Event.loadCall modulePath]

/-- The events of a cache-miss call (the attempt, plus the accessor
invocation when the accessor is a function). -/
def freshEvents (env : Env) (modulePath : String)
    (requireFn : Option RequireFunction) : List Event :=
  let req := requireFn.getD env.defaultRequire
  match loadOutcome env modulePath req with
  | Except.error _ => attemptEvents modulePath req
  | Except.ok pkg =>
      match pkg.getManifest with
      | none => attemptEvents modulePath req
      | some _ => attemptEvents modulePath req ++ [Event.accessorCall modulePath]

/-! ## Lemmas about the external manifest cache -/

theorem attemptLoad_eq (env : Env) (p : String) (req : RequireFunction) (s : St) :
    attemptLoad env p req s = (loadOutcome env p req, s, attemptEvents p req) := by
  unfold attemptLoad loadOutcome attemptEvents
  cases hres : req.resolve with
  | none => rfl
  | some resolveFn =>
      cases hr : resolveFn p with
      | error e => simp [hr]
      | ok rp => simp [hr]

theorem getExternalManifest_hit (env : Env) (p : String) (rf : Option RequireFunction)
    (s : St) (v : Option MacroManifest) (h : lookupCache s.cache p = some v) :
    getExternalManifest env p rf s = (v, s, []) := by
  unfold getExternalManifest
  rw [h]

theorem getExternalManifest_miss (env : Env) (p : String) (rf : Option RequireFunction)
    (s : St) (h : lookupCache s.cache p = none) :
    getExternalManifest env p rf s =
      (freshResult env p rf,
       { s with cache := (p, freshResult env p rf) :: s.cache },
       freshEvents env p rf) := by
  simp only [getExternalManifest, h, attemptLoad_eq]
  unfold freshResult freshEvents
  cases ho : loadOutcome env p (rf.getD env.defaultRequire) with
  | error e => simp [ho]
  | ok pkg =>
      cases hm : pkg.getManifest with
      | none => simp [ho, hm]
      | some r =>
          cases r with
          | error e => simp [ho, hm]
          | ok m => simp [ho, hm]

theorem lookupCache_after_call (env : Env) (p : String) (rf : Option RequireFunction)
    (s : St) :
    lookupCache ((getExternalManifest env p rf s).2.1).cache p
      = some ((getExternalManifest env p rf s).1) := by
  cases h : lookupCache s.cache p with
  | some v =>
      rw [getExternalManifest_hit env p rf s v h]
      exact h
  | none =>
      rw [getExternalManifest_miss env p rf s h]
      simp [lookupCache, List.find?_cons]

theorem scoped_ambient_attempt (p : String) (req : RequireFunction) (b i : String)
    (a : Option ReqVal) (h : Event.scopedLoadCall b i a ∈ attemptEvents p req) :
    a = some (ReqVal.scoped b) := by
  unfold attemptEvents at h
  cases hres : req.resolve with
  | none => simp [hres] at h
  | some resolveFn =>
      simp only [hres] at h
      cases hr : resolveFn p with
      | error e => simp [hr] at h
      | ok rp =>
          simp [hr, List.mem_cons] at h
          obtain ⟨hb, _, ha⟩ := h
          rw [hb, ha]

theorem freshEvents_cases (env : Env) (p : String) (rf : Option RequireFunction) :
    freshEvents env p rf = attemptEvents p (rf.getD env.defaultRequire) ∨
    freshEvents env p rf
      = attemptEvents p (rf.getD env.defaultRequire) ++ [Event.accessorCall p] := by
  unfold freshEvents
  cases ho : loadOutcome env p (rf.getD env.defaultRequire) with
  | error e => left; simp [ho]
  | ok pkg =>
      cases hm : pkg.getManifest with
      | none => left; simp [ho, hm]
      | some r => right; simp [ho, hm]

theorem scoped_ambient_fresh (env : Env) (p : String) (rf : Option RequireFunction)
    (b i : String) (a : Option ReqVal)
    (h : Event.scopedLoadCall b i a ∈ freshEvents env p rf) :
    a = some (ReqVal.scoped b) := by
  cases freshEvents_cases env p rf with
  | inl he =>
      rw [he] at h
      exact scoped_ambient_attempt p _ b i a h
  | inr he =>
      rw [he] at h
      cases List.mem_append.mp h with
      | inl hl => exact scoped_ambient_attempt p _ b i a hl
      | inr hr => simp at hr

/-- C2: during the resolution-refined load, the ambient loader
(`globalThis.require`) is replaced by a require scoped to the resolved
module's location, and the previous ambient value is restored on every exit
path of `getExternalManifest` — the final `globalRequire` always equals the
initial one (so an unset ambient loader stays unset), and every nested
scoped load runs with the ambient loader set to the scoped require of its
own base path. -/
theorem globalRequire_scoped_and_restored (env : Env) (p : String)
    (rf : Option RequireFunction) (s : St) :
    (getExternalManifest env p rf s).2.1.globalRequire = s.globalRequire ∧
    ∀ b i a, Event.scopedLoadCall b i a ∈ (getExternalManifest env p rf s).2.2 →
      a = some (ReqVal.scoped b) := by
  cases h : lookupCache s.cache p with
  | some v =>
      rw [getExternalManifest_hit env p rf s v h]
      refine ⟨rfl, ?_⟩
      intro b i a ha
      simp at ha
  | none =>
      rw [getExternalManifest_miss env p rf s h]
      refine ⟨rfl, ?_⟩
      intro b i a ha
      exact scoped_ambient_fresh env p rf b i a ha

/-- Witness for C2: a resolve-capable load at a concrete state with the
ambient loader unset; the ambient loader is unset again afterwards and the
nested load saw the scoped require. -/
theorem globalRequire_scoped_and_restored_witness :
    (getExternalManifest sampleEnv "pkg" (some sampleRequire) emptySt).2.1.globalRequire
        = emptySt.globalRequire ∧
    ∀ b i a,
      Event.scopedLoadCall b i a
          ∈ (getExternalManifest sampleEnv "pkg" (some sampleRequire) emptySt).2.2 →
        a = some (ReqVal.scoped b) :=
  globalRequire_scoped_and_restored sampleEnv "pkg" (some sampleRequire) emptySt

/-- C9: on a cache miss the new cache is the old cache extended with one
entry keyed by the exact `modulePath` argument (no normalization), holding
exactly the returned result. -/
theorem cache_keyed_by_exact_path (env : Env) (p : String)
    (rf : Option RequireFunction) (s : St) (h : lookupCache s.cache p = none) :
    (getExternalManifest env p rf s).2.1.cache
      = (p, (getExternalManifest env p rf s).1) :: s.cache := by
  rw [getExternalManifest_miss env p rf s h]

/-- Witness for C9: the loader resolves `"pkg"` to the absolute path
`"/abs/pkg"`, yet the cache entry is keyed by `"pkg"`. -/
theorem cache_keyed_by_exact_path_witness :
    lookupCache emptySt.cache "pkg" = none ∧
    (getExternalManifest sampleEnv "pkg" (some sampleRequire) emptySt).2.1.cache
      = ("pkg", (getExternalManifest sampleEnv "pkg" (some sampleRequire) emptySt).1)
          :: emptySt.cache :=
  ⟨by decide,
   cache_keyed_by_exact_path sampleEnv "pkg" (some sampleRequire) emptySt (by decide)⟩

/-- C1: the loader runs at most once per distinct path — an immediately
repeated call returns the cached result with no loader events; a cached
entry survives calls for arbitrary (same or other) paths; and only
`clearExternalManifestCache` empties the cache. -/
theorem externalManifest_memoizes (env : Env) (p : String)
    (rf rf2 : Option RequireFunction) (s : St) :
    getExternalManifest env p rf2 ((getExternalManifest env p rf s).2.1)
      = ((getExternalManifest env p rf s).1,
         (getExternalManifest env p rf s).2.1, []) ∧
    (∀ p2 rf3 v, lookupCache s.cache p = some v →
        lookupCache ((getExternalManifest env p2 rf3 s).2.1).cache p = some v) ∧
    lookupCache (clearExternalManifestCache s).cache p = none := by
  refine ⟨?_, ?_, rfl⟩
  · exact getExternalManifest_hit env p rf2 _ _ (lookupCache_after_call env p rf s)
  · intro p2 rf3 v hv
    cases h2 : lookupCache s.cache p2 with
    | some w =>
        rw [getExternalManifest_hit env p2 rf3 s w h2]
        exact hv
    | none =>
        rw [getExternalManifest_miss env p2 rf3 s h2]
        have hne : (p2 == p) = false := by
          by_cases hpq : p2 = p
          · subst hpq
            rw [h2] at hv
            exact Option.noConfusion hv
          · simp [hpq]
        simp only [lookupCache, List.find?_cons, hne]
        exact hv

/-- Witness for C1: a successful load of `"pkg"` is cached; the repeat call
is a pure cache hit, and a pre-existing entry survives a call for another
path. -/
theorem externalManifest_memoizes_witness :
    lookupCache preloadedSt.cache "@playground/macro" = some (some sampleManifest) ∧
    lookupCache ((getExternalManifest sampleEnv "other" none preloadedSt).2.1).cache
        "@playground/macro" = some (some sampleManifest) ∧
    getExternalManifest sampleEnv "pkg" (some sampleRequire)
        ((getExternalManifest sampleEnv "pkg" (some sampleRequire) emptySt).2.1)
      = ((getExternalManifest sampleEnv "pkg" (some sampleRequire) emptySt).1,
         (getExternalManifest sampleEnv "pkg" (some sampleRequire) emptySt).2.1, []) :=
  ⟨by decide,
   (externalManifest_memoizes sampleEnv "@playground/macro" none none preloadedSt).2.1
     "other" none (some sampleManifest) (by decide),
   (externalManifest_memoizes sampleEnv "pkg" (some sampleRequire)
     (some sampleRequire) emptySt).1⟩

theorem freshResult_of_errored (env : Env) (p : String) (rf : Option RequireFunction)
    (h : loadErrored env p rf = true) : freshResult env p rf = none := by
  unfold loadErrored at h
  unfold freshResult
  cases ho : loadOutcome env p (rf.getD env.defaultRequire) with
  | error e => simp [ho]
  | ok pkg =>
      simp only [ho] at h
      cases hm : pkg.getManifest with
      | none => simp [hm] at h
      | some r =>
          cases r with
          | error e => simp [ho, hm]
          | ok m => simp [hm] at h

/-- C3: any error raised during the load (resolution failure, module
missing, accessor throwing) is caught: the call returns absent (`none`),
the absent marker is cached under the path, and a subsequent call for the
same path returns absent with no further load attempt. -/
theorem load_errors_cached_absent (env : Env) (p : String)
    (rf : Option RequireFunction) (s : St)
    (hmiss : lookupCache s.cache p = none)
    (herr : loadErrored env p rf = true) :
    (getExternalManifest env p rf s).1 = none ∧
    lookupCache ((getExternalManifest env p rf s).2.1).cache p = some none ∧
    getExternalManifest env p rf ((getExternalManifest env p rf s).2.1)
      = (none, (getExternalManifest env p rf s).2.1, []) := by
  have hf := freshResult_of_errored env p rf herr
  have h1 : (getExternalManifest env p rf s).1 = none := by
    rw [getExternalManifest_miss env p rf s hmiss]
    exact hf
  have h2 : lookupCache ((getExternalManifest env p rf s).2.1).cache p = some none := by
    rw [lookupCache_after_call env p rf s, h1]
  refine ⟨h1, h2, ?_⟩
  have h3 := getExternalManifest_hit env p rf _ none h2
  exact h3

/-- Witness for C3: a loader without `resolve` whose load always throws;
the error is absorbed, `none` is returned and the absent marker cached. -/
theorem load_errors_cached_absent_witness :
    lookupCache emptySt.cache "missing" = none ∧
    loadErrored sampleEnv "missing" (some failRequire) = true ∧
    (getExternalManifest sampleEnv "missing" (some failRequire) emptySt).1 = none ∧
    lookupCache ((getExternalManifest sampleEnv "missing" (some failRequire)
        emptySt).2.1).cache "missing" = some none :=
  ⟨by decide, by decide,
   (load_errors_cached_absent sampleEnv "missing" (some failRequire) emptySt
      (by decide) (by decide)).1,
   (load_errors_cached_absent sampleEnv "missing" (some failRequire) emptySt
      (by decide) (by decide)).2.1⟩

/-- C10: on a cache miss with a supplied resolve-capable require function,
the supplied function is never invoked to load (no direct-load event
appears in the trace); when resolution succeeds the load is performed by a
require scoped to the resolved path, on the resolved path. -/
theorem resolve_capable_never_loads_directly (env : Env) (p : String)
    (rf : RequireFunction) (res : String → Except Unit String) (s : St)
    (hmiss : lookupCache s.cache p = none)
    (hres : rf.resolve = some res) :
    (∀ id, Event.loadCall id ∉ (getExternalManifest env p (some rf) s).2.2) ∧
    (∀ rp, res p = Except.ok rp →
        Event.scopedLoadCall rp rp (some (ReqVal.scoped rp))
          ∈ (getExternalManifest env p (some rf) s).2.2) := by
  rw [getExternalManifest_miss env p (some rf) s hmiss]
  have hreq : (some rf).getD env.defaultRequire = rf := rfl
  constructor
  · intro id hid
    cases freshEvents_cases env p (some rf) with
    | inl he =>
        rw [he, hreq] at hid
        unfold attemptEvents at hid
        rw [hres] at hid
        cases hr : res p with
        | error e => simp [hr] at hid
        | ok rp => simp [hr] at hid
    | inr he =>
        rw [he, hreq] at hid
        cases List.mem_append.mp hid with
        | inl hl =>
            unfold attemptEvents at hl
            rw [hres] at hl
            cases hr : res p with
            | error e => simp [hr] at hl
            | ok rp => simp [hr] at hl
        | inr hr => simp at hr
  · intro rp hrp
    have hmem : Event.scopedLoadCall rp rp (some (ReqVal.scoped rp))
        ∈ attemptEvents p rf := by
      unfold attemptEvents
      rw [hres]
      simp [hrp]
    cases freshEvents_cases env p (some rf) with
    | inl he =>
        rw [he, hreq]
        exact hmem
    | inr he =>
        rw [he, hreq]
        exact List.mem_append_left _ hmem

/-- Witness for C10: `sampleRequire` exposes `resolve`; the trace of the
cache-miss call contains no direct-load event and does contain the scoped
load at the resolved path. -/
theorem resolve_capable_never_loads_directly_witness :
    lookupCache emptySt.cache "pkg" = none ∧
    sampleRequire.resolve.isSome = true ∧
    (∀ id, Event.loadCall id
        ∉ (getExternalManifest sampleEnv "pkg" (some sampleRequire) emptySt).2.2) ∧
    Event.scopedLoadCall "/abs/pkg" "/abs/pkg" (some (ReqVal.scoped "/abs/pkg"))
      ∈ (getExternalManifest sampleEnv "pkg" (some sampleRequire) emptySt).2.2 :=
  ⟨by decide, rfl,
   (resolve_capable_never_loads_directly sampleEnv "pkg" sampleRequire
      (fun p => Except.ok ("/abs/" ++ p)) emptySt (by decide) rfl).1,
   (resolve_capable_never_loads_directly sampleEnv "pkg" sampleRequire
      (fun p => Except.ok ("/abs/" ++ p)) emptySt (by decide) rfl).2
     "/abs/pkg" rfl⟩

/-! ## Lemmas about the config locator -/

theorem findConfigFile_found (fsys : FileSystem) (dir : List String) (f : String)
    (h : CONFIG_FILES.find? (fun filename => fsys.hasFile dir filename) = some f) :
    findConfigFile fsys dir = some (dir, f) := by
  cases dir with
  | nil => unfold findConfigFile; rw [h]
  | cons seg rest => unfold findConfigFile; rw [h]

theorem findConfigFile_boundary (fsys : FileSystem) (dir : List String)
    (h : CONFIG_FILES.find? (fun filename => fsys.hasFile dir filename) = none)
    (hb : fsys.hasFile dir "package.json" = true) :
    findConfigFile fsys dir = none := by
  cases dir with
  | nil => unfold findConfigFile; rw [h]
  | cons seg rest =>
      unfold findConfigFile
      rw [h, hb]
      simp

theorem findConfigFile_ascend (fsys : FileSystem) (seg : String) (rest : List String)
    (h : CONFIG_FILES.find? (fun filename => fsys.hasFile (seg :: rest) filename) = none)
    (hb : fsys.hasFile (seg :: rest) "package.json" = false) :
    findConfigFile fsys (seg :: rest) = findConfigFile fsys rest := by
  conv_lhs => unfold findConfigFile
  rw [h, hb]
  simp

theorem findConfigFile_root (fsys : FileSystem)
    (h : CONFIG_FILES.find? (fun filename => fsys.hasFile [] filename) = none) :
    findConfigFile fsys [] = none := by
  unfold findConfigFile
  rw [h]

theorem findConfigFile_ts_precedence (fsys : FileSystem) (dir : List String)
    (h : fsys.hasFile dir "macroforge.config.ts" = true) :
    findConfigFile fsys dir = some (dir, "macroforge.config.ts") := by
  apply findConfigFile_found
  simp [CONFIG_FILES, List.find?_cons, h]

/-- C4: `findConfigFile` follows the reference algorithm — in each directory
it tries the five candidates in fixed precedence order and returns the first
present; with none present it stops (not-found) at a `package.json`
boundary; otherwise it recurses into the parent, and at the filesystem root
(where the parent equals the directory) it returns not-found; the
statically-typed `.ts` variant always beats the plain-script `.js` variant
in the same directory. -/
theorem findConfigFile_reference_algorithm :
    (∀ fsys dir f,
        CONFIG_FILES.find? (fun filename => fsys.hasFile dir filename) = some f →
        findConfigFile fsys dir = some (dir, f)) ∧
    (∀ fsys dir,
        CONFIG_FILES.find? (fun filename => fsys.hasFile dir filename) = none →
        fsys.hasFile dir "package.json" = true →
        findConfigFile fsys dir = none) ∧
    (∀ fsys seg rest,
        CONFIG_FILES.find? (fun filename => fsys.hasFile (seg :: rest) filename) = none →
        fsys.hasFile (seg :: rest) "package.json" = false →
        findConfigFile fsys (seg :: rest) = findConfigFile fsys rest) ∧
    (∀ fsys,
        CONFIG_FILES.find? (fun filename => fsys.hasFile [] filename) = none →
        findConfigFile fsys [] = none) ∧
    (∀ fsys dir, fsys.hasFile dir "macroforge.config.ts" = true →
        fsys.hasFile dir "macroforge.config.js" = true →
        findConfigFile fsys dir = some (dir, "macroforge.config.ts")) :=
  ⟨findConfigFile_found, findConfigFile_boundary, findConfigFile_ascend,
   findConfigFile_root,
   fun fsys dir hts _ => findConfigFile_ts_precedence fsys dir hts⟩

/-- Witness for C4: a directory holding both the `.ts` and `.js` variants;
the `.ts` path is returned. -/
theorem findConfigFile_reference_algorithm_witness :
    sampleFs.hasFile ["sub", "proj"] "macroforge.config.ts" = true ∧
    sampleFs.hasFile ["sub", "proj"] "macroforge.config.js" = true ∧
    findConfigFile sampleFs ["sub", "proj"]
      = some (["sub", "proj"], "macroforge.config.ts") :=
  ⟨by decide, by decide,
   findConfigFile_reference_algorithm.2.2.2.2 sampleFs ["sub", "proj"]
     (by decide) (by decide)⟩

/-- C5: `loadMacroConfig` always returns a defined record: with no config
file located it is `{keepDecorators := false}` with every other field unset;
with a located file and a supplied loader, a failing read or a throwing
loader yields the same defaults plus the discovered `configPath`, never a
propagated error. -/
theorem loadMacroConfig_total_defaults :
    (∀ fsys startDir lfn, findConfigFile fsys startDir = none →
        loadMacroConfig fsys startDir lfn = { keepDecorators := false }) ∧
    (∀ fsys startDir lf cp, findConfigFile fsys startDir = some cp →
        fsys.readFile cp.1 cp.2 = Except.error () →
        loadMacroConfig fsys startDir (some lf)
          = { keepDecorators := false, configPath := some cp }) ∧
    (∀ fsys startDir lf cp content, findConfigFile fsys startDir = some cp →
        fsys.readFile cp.1 cp.2 = Except.ok content →
        lf content cp = Except.error () →
        loadMacroConfig fsys startDir (some lf)
          = { keepDecorators := false, configPath := some cp }) := by
  refine ⟨?_, ?_, ?_⟩
  · intro fsys startDir lfn h
    unfold loadMacroConfig
    rw [h]
  · intro fsys startDir lf cp h hr
    unfold loadMacroConfig
    rw [h]
    simp only [hr]
  · intro fsys startDir lf cp content h hr hl
    unfold loadMacroConfig
    rw [h]
    simp only [hr, hl]

/-- Witness for C5: no config file anywhere gives the bare defaults, and a
located file whose read throws gives the defaults plus the path. -/
theorem loadMacroConfig_total_defaults_witness :
    findConfigFile bareFs ["a"] = none ∧
    loadMacroConfig bareFs ["a"] (some sampleLoader) = { keepDecorators := false } ∧
    findConfigFile sampleFs ["sub", "proj"]
      = some (["sub", "proj"], "macroforge.config.ts") ∧
    loadMacroConfig sampleFs ["sub", "proj"] (some sampleLoader)
      = { keepDecorators := false,
          configPath := some (["sub", "proj"], "macroforge.config.ts") } :=
  ⟨by decide,
   loadMacroConfig_total_defaults.1 bareFs ["a"] (some sampleLoader) (by decide),
   by decide,
   loadMacroConfig_total_defaults.2.1 sampleFs ["sub", "proj"] sampleLoader
     (["sub", "proj"], "macroforge.config.ts") (by decide) rfl⟩

/-! ## Lemmas about the Map model and the comment parser -/

theorem mapGet_map_upd_self (m : List (String × String)) (k v : String)
    (hany : m.any (fun e => e.1 == k) = true) :
    mapGet (m.map (fun e => if e.1 == k then (k, v) else e)) k = some v := by
  induction m with
  | nil => simp at hany
  | cons e rest ih =>
      by_cases he : e.1 = k
      · simp [mapGet, List.find?_cons, he]
      · have h2 : rest.any (fun e => e.1 == k) = true := by
          simpa [List.any_cons, he] using hany
        simpa [mapGet, List.find?_cons, he] using ih h2

theorem mapGet_map_upd_ne (m : List (String × String)) (k v k2 : String)
    (hne : ¬(k2 = k)) :
    mapGet (m.map (fun e => if e.1 == k then (k, v) else e)) k2 = mapGet m k2 := by
  induction m with
  | nil => rfl
  | cons e rest ih =>
      simp only [mapGet, List.map_cons, List.find?_cons] at ih ⊢
      by_cases he2 : e.1 = k2
      · have hek : ¬(e.1 = k) := by
          rw [he2]
          exact hne
        have hupd : (if e.1 == k then (k, v) else e) = e := by simp [hek]
        have hpred : (e.1 == k2) = true := by simp [he2]
        rw [hupd]
        simp only [hpred]
      · have hpred : (e.1 == k2) = false := by simp [he2]
        have hpred2 : ((if e.1 == k then (k, v) else e).1 == k2) = false := by
          by_cases hek : e.1 = k
          · simp [hek, Ne.symm hne]
          · simp [hek, he2]
        simp only [hpred, hpred2]
        exact ih

theorem mapGet_append_absent (m : List (String × String)) (k v k2 : String)
    (hany : m.any (fun e => e.1 == k) = false) :
    mapGet (m ++ [(k, v)]) k2 = if k2 = k then some v else mapGet m k2 := by
  induction m with
  | nil =>
      by_cases h : k2 = k
      · simp [mapGet, List.find?_cons, h]
      · simp [mapGet, List.find?_cons, h, Ne.symm h]
  | cons e rest ih =>
      obtain ⟨h1, h2⟩ : (e.1 == k) = false ∧ rest.any (fun e => e.1 == k) = false := by
        simpa [List.any_cons] using hany
      by_cases he2 : e.1 = k2
      · have hkk : ¬(k2 = k) := by
          intro hk
          rw [hk] at he2
          simp [he2] at h1
        simp [mapGet, List.find?_cons, he2, hkk]
      · simpa [mapGet, List.find?_cons, he2] using ih h2

theorem mapGet_mapSet (m : List (String × String)) (k v k2 : String) :
    mapGet (mapSet m k v) k2 = if k2 = k then some v else mapGet m k2 := by
  unfold mapSet
  cases hany : m.any (fun e => e.1 == k) with
  | true =>
      simp only [hany, if_true]
      by_cases hk : k2 = k
      · subst hk
        rw [if_pos rfl]
        exact mapGet_map_upd_self m k2 v hany
      · rw [if_neg hk]
        exact mapGet_map_upd_ne m k v k2 hk
  | false =>
      simp only [hany, Bool.false_eq_true, if_false]
      exact mapGet_append_absent m k v k2 hany

/-- Folding `Map.set` over a list of assignments: a lookup returns the value
of the last assignment for that key, falling back to the initial map. -/
theorem mapGet_applyAssignments (as : List (String × String)) (m0 : List (String × String))
    (k : String) :
    mapGet (applyAssignments m0 as) k
      = match as.reverse.find? (fun kv => kv.1 == k) with
        | some kv => some kv.2
        | none => mapGet m0 k := by
  induction as generalizing m0 with
  | nil => rfl
  | cons kv rest ih =>
      have hstep : applyAssignments m0 (kv :: rest)
          = applyAssignments (mapSet m0 kv.1 kv.2) rest := rfl
      rw [hstep, ih, List.reverse_cons, List.find?_append]
      cases hf : rest.reverse.find? (fun kv2 => kv2.1 == k) with
      | some r => simp
      | none =>
          simp only [Option.none_or]
          rw [mapGet_mapSet]
          by_cases hk : k = kv.1
          · simp [List.find?_cons, hk]
          · simp [List.find?_cons, hk, Ne.symm hk]

theorem applyAssignments_append (m0 as1 as2 : List (String × String)) :
    applyAssignments m0 (as1 ++ as2)
      = applyAssignments (applyAssignments m0 as1) as2 := by
  simp [applyAssignments, List.foldl_append]

theorem names_foldl_eq (names : List String) (path : String)
    (m0 : List (String × String)) :
    names.foldl (fun imp n => mapSet imp n path) m0
      = applyAssignments m0 (names.map (fun n => (n, path))) := by
  induction names generalizing m0 with
  | nil => rfl
  | cons n rest ih => exact ih (mapSet m0 n path)

theorem matches_foldl_eq (ms : List (String × String))
    (m0 : List (String × String)) :
    ms.foldl
        (fun imports mt =>
          (namesOf mt.1).foldl (fun imp n => mapSet imp n mt.2) imports) m0
      = applyAssignments m0
          ((ms.map (fun mt => (namesOf mt.1).map (fun n => (n, mt.2)))).flatten) := by
  induction ms generalizing m0 with
  | nil => rfl
  | cons mt rest ih =>
      rw [List.map_cons, List.flatten_cons, applyAssignments_append,
          List.foldl_cons, names_foldl_eq]
      exact ih (applyAssignments m0 ((namesOf mt.1).map (fun n => (n, mt.2))))

theorem parse_eq_assignments (text : String) :
    parseMacroImportComments text = applyAssignments [] (parseAssignments text) :=
  matches_foldl_eq (execMatches text) []

/-- C6: `parseMacroImportComments` processes the matches in document order
and, when an identifier occurs in several matches, maps it to the module
path of its last assignment (last-wins); on the concrete two-declaration
example the name maps to `package-b`. -/
theorem parseMacroImportComments_last_wins :
    (∀ text name,
        mapGet (parseMacroImportComments text) name
          = ((parseAssignments text).reverse.find?
              (fun kv => kv.1 == name)).map (fun kv => kv.2)) ∧
    mapGet (parseMacroImportComments lastWinsExample) "useThing"
      = some "package-b" := by
  constructor
  · intro text name
    rw [parse_eq_assignments, mapGet_applyAssignments]
    cases hf : (parseAssignments text).reverse.find? (fun kv => kv.1 == name) with
    | some kv => simp
    | none => simp [mapGet]
  · decide

/-! ## Lemmas about the manifest lookup helpers -/

theorem getExternalMacroInfo_fst (env : Env) (n p : String)
    (rf : Option RequireFunction) (s : St) :
    (getExternalMacroInfo env n p rf s).1
      = match (getExternalManifest env p rf s).1 with
        | none => none
        | some m => m.macros.find? (fun e => jsToLower e.name == jsToLower n) := by
  unfold getExternalMacroInfo
  rcases ht : getExternalManifest env p rf s with ⟨r, s1, ev⟩
  cases r with
  | none => rfl
  | some m => rfl

theorem getExternalDecoratorInfo_fst (env : Env) (n p : String)
    (rf : Option RequireFunction) (s : St) :
    (getExternalDecoratorInfo env n p rf s).1
      = match (getExternalManifest env p rf s).1 with
        | none => none
        | some m => m.decorators.find? (fun e => jsToLower e.exportName == jsToLower n) := by
  unfold getExternalDecoratorInfo
  rcases ht : getExternalManifest env p rf s with ⟨r, s1, ev⟩
  cases r with
  | none => rfl
  | some m => rfl

/-- C7: `getExternalMacroInfo` scans `macros` by `name` and
`getExternalDecoratorInfo` scans `decorators` by `export`, each with
case-insensitive equality, returning the first match in collection order;
both return `none` when the manifest is absent (and hence when no entry
matches); a first returned match really is first: everything before it in
the collection fails the case-insensitive comparison.  Concretely, looking
up `"json"` finds the entry named `"JSON"`. -/
theorem external_info_case_insensitive_first_match :
    (∀ env n p rf s, (getExternalManifest env p rf s).1 = none →
        (getExternalMacroInfo env n p rf s).1 = none ∧
        (getExternalDecoratorInfo env n p rf s).1 = none) ∧
    (∀ env n p rf s m, (getExternalManifest env p rf s).1 = some m →
        (getExternalMacroInfo env n p rf s).1
          = m.macros.find? (fun e => jsToLower e.name == jsToLower n) ∧
        (getExternalDecoratorInfo env n p rf s).1
          = m.decorators.find? (fun e => jsToLower e.exportName == jsToLower n)) ∧
    (∀ env n p rf s m e, (getExternalManifest env p rf s).1 = some m →
        (getExternalMacroInfo env n p rf s).1 = some e →
        jsToLower e.name = jsToLower n ∧
        ∃ pre post, m.macros = pre ++ e :: post ∧
          ∀ x ∈ pre, ¬(jsToLower x.name = jsToLower n)) ∧
    (getExternalMacroInfo sampleEnv "json" "@playground/macro" none preloadedSt).1
      = some { name := "JSON", description := "derive json" } := by
  refine ⟨?_, ?_, ?_, by decide⟩
  · intro env n p rf s h
    constructor
    · rw [getExternalMacroInfo_fst, h]
    · rw [getExternalDecoratorInfo_fst, h]
  · intro env n p rf s m h
    constructor
    · rw [getExternalMacroInfo_fst, h]
    · rw [getExternalDecoratorInfo_fst, h]
  · intro env n p rf s m e hm he
    have hfind : m.macros.find? (fun x => jsToLower x.name == jsToLower n) = some e := by
      rw [getExternalMacroInfo_fst, hm] at he
      exact he
    obtain ⟨hp, pre, post, hsplit, hpre⟩ := List.find?_eq_some.mp hfind
    refine ⟨by simpa using hp, pre, post, hsplit, ?_⟩
    intro x hx
    simpa using hpre x hx

/-- Witness for C7: the preloaded cache holds `sampleManifest`; both lookup
helpers reduce to the case-insensitive first-match scan of its
collections. -/
theorem external_info_case_insensitive_first_match_witness :
    (getExternalManifest sampleEnv "@playground/macro" none preloadedSt).1
        = some sampleManifest ∧
    (getExternalMacroInfo sampleEnv "json" "@playground/macro" none preloadedSt).1
      = sampleManifest.macros.find? (fun e => jsToLower e.name == jsToLower "json") ∧
    (getExternalDecoratorInfo sampleEnv "json" "@playground/macro" none preloadedSt).1
      = sampleManifest.decorators.find?
          (fun e => jsToLower e.exportName == jsToLower "json") :=
  ⟨by decide,
   (external_info_case_insensitive_first_match.2.1 sampleEnv "json"
      "@playground/macro" none preloadedSt sampleManifest (by decide)).1,
   (external_info_case_insensitive_first_match.2.1 sampleEnv "json"
      "@playground/macro" none preloadedSt sampleManifest (by decide)).2⟩

/-! ## Lemmas about the composite helper -/

theorem getExternalManifest_fst_congr (env : Env) (p : String)
    (rf : Option RequireFunction) (s s' : St)
    (h : lookupCache s'.cache p = lookupCache s.cache p) :
    (getExternalManifest env p rf s').1 = (getExternalManifest env p rf s).1 := by
  cases hl : lookupCache s.cache p with
  | some v =>
      rw [getExternalManifest_hit env p rf s v hl,
          getExternalManifest_hit env p rf s' v (h.trans hl)]
  | none =>
      rw [getExternalManifest_miss env p rf s hl,
          getExternalManifest_miss env p rf s' (h.trans hl)]

theorem lookupCache_other_preserved (env : Env) (called q : String)
    (rf : Option RequireFunction) (s : St) (hne : ¬(q = called)) :
    lookupCache ((getExternalManifest env called rf s).2.1).cache q
      = lookupCache s.cache q := by
  cases hl : lookupCache s.cache called with
  | some v => rw [getExternalManifest_hit env called rf s v hl]
  | none =>
      rw [getExternalManifest_miss env called rf s hl]
      have hcq : ¬(called = q) := fun hh => hne hh.symm
      simp [lookupCache, List.find?_cons, hcq]

theorem mem_dedupFirstAux (xs : List String) : ∀ (seen : List String) (y : String),
    y ∈ dedupFirstAux seen xs ↔ y ∈ xs ∧ y ∉ seen := by
  induction xs with
  | nil => intro seen y; simp [dedupFirstAux]
  | cons x rest ih =>
      intro seen y
      by_cases hx : x ∈ seen
      · rw [dedupFirstAux, if_pos hx, ih, List.mem_cons]
        constructor
        · rintro ⟨hy, hns⟩
          exact ⟨Or.inr hy, hns⟩
        · rintro ⟨hy | hy, hns⟩
          · subst hy
            exact absurd hx hns
          · exact ⟨hy, hns⟩
      · rw [dedupFirstAux, if_neg hx, List.mem_cons, ih, List.mem_cons]
        by_cases hyx : y = x
        · subst hyx
          simp [hx]
        · simp [hyx]

theorem nodup_dedupFirstAux (xs : List String) : ∀ (seen : List String),
    (dedupFirstAux seen xs).Nodup := by
  induction xs with
  | nil => intro seen; simp [dedupFirstAux]
  | cons x rest ih =>
      intro seen
      by_cases hx : x ∈ seen
      · rw [dedupFirstAux, if_pos hx]
        exact ih seen
      · rw [dedupFirstAux, if_neg hx]
        refine List.nodup_cons.mpr ⟨?_, ih (x :: seen)⟩
        intro hmem
        exact ((mem_dedupFirstAux rest (x :: seen) x).mp hmem).2 (List.mem_cons_self x seen)

theorem collectGo_eq (env : Env) (rf : Option RequireFunction) (ps : List String) :
    ∀ (s s' : St), ps.Nodup →
      (∀ q ∈ ps, lookupCache s'.cache q = lookupCache s.cache q) →
      (collectGo env rf ps s').1
        = (ps.map (fun p =>
            manifestDecoratorModules (getExternalManifest env p rf s).1)).flatten := by
  induction ps with
  | nil => intro s s' _ _; rfl
  | cons p rest ih =>
      intro s s' hnd hlk
      have hp : lookupCache s'.cache p = lookupCache s.cache p :=
        hlk p (List.mem_cons_self p rest)
      have hfst : (getExternalManifest env p rf s').1
          = (getExternalManifest env p rf s).1 :=
        getExternalManifest_fst_congr env p rf s s' hp
      have hrest : ∀ q ∈ rest,
          lookupCache ((getExternalManifest env p rf s').2.1).cache q
            = lookupCache s.cache q := by
        intro q hq
        have hne : ¬(q = p) := fun hh => (List.nodup_cons.mp hnd).1 (hh ▸ hq)
        rw [lookupCache_other_preserved env p q rf s' hne]
        exact hlk q (List.mem_cons_of_mem _ hq)
      show manifestDecoratorModules (getExternalManifest env p rf s').1
          ++ (collectGo env rf rest ((getExternalManifest env p rf s').2.1)).1 = _
      rw [List.map_cons, List.flatten_cons, hfst,
          ih s ((getExternalManifest env p rf s').2.1) (List.nodup_cons.mp hnd).2 hrest]

/-- C8: `collectExternalDecoratorModules` takes the distinct module paths of
the parsed import table (first-occurrence order, no duplicates), obtains the
manifest of each via one `getExternalManifest` call, and returns the plain
concatenation of the `module` fields of every available manifest's
decorators — absent manifests contribute nothing and the result is not
deduplicated. -/
theorem collectExternalDecoratorModules_spec (env : Env) (code : String)
    (rf : Option RequireFunction) (s : St) :
    (collectExternalDecoratorModules env code rf s).1
      = ((dedupFirst ((parseMacroImportComments code).map (fun kv => kv.2))).map
          (fun p => manifestDecoratorModules (getExternalManifest env p rf s).1)).flatten ∧
    (dedupFirst ((parseMacroImportComments code).map (fun kv => kv.2))).Nodup ∧
    (∀ x, x ∈ dedupFirst ((parseMacroImportComments code).map (fun kv => kv.2)) ↔
        x ∈ (parseMacroImportComments code).map (fun kv => kv.2)) := by
  refine ⟨?_, nodup_dedupFirstAux _ [], ?_⟩
  · exact collectGo_eq env rf
      (dedupFirst ((parseMacroImportComments code).map (fun kv => kv.2))) s s
      (nodup_dedupFirstAux _ []) (fun q _ => rfl)
  · intro x
    rw [dedupFirst, mem_dedupFirstAux]
    simp

/-- Witness for C8: the full specification instantiated at a concrete code
string, environment and state. -/
theorem collectExternalDecoratorModules_spec_witness :
    (collectExternalDecoratorModules sampleEnv lastWinsExample
        (some sampleRequire) emptySt).1
      = ((dedupFirst ((parseMacroImportComments lastWinsExample).map
            (fun kv => kv.2))).map
          (fun p => manifestDecoratorModules
            (getExternalManifest sampleEnv p (some sampleRequire) emptySt).1)).flatten ∧
    (dedupFirst ((parseMacroImportComments lastWinsExample).map
        (fun kv => kv.2))).Nodup ∧
    (∀ x, x ∈ dedupFirst ((parseMacroImportComments lastWinsExample).map
          (fun kv => kv.2)) ↔
        x ∈ (parseMacroImportComments lastWinsExample).map (fun kv => kv.2)) :=
  collectExternalDecoratorModules_spec sampleEnv lastWinsExample
    (some sampleRequire) emptySt

/-- Witness for C6: the last-wins characterization instantiated at the
concrete two-declaration example. -/
theorem parseMacroImportComments_last_wins_witness :
    mapGet (parseMacroImportComments lastWinsExample) "useThing"
      = ((parseAssignments lastWinsExample).reverse.find?
          (fun kv => kv.1 == "useThing")).map (fun kv => kv.2) :=
  parseMacroImportComments_last_wins.1 lastWinsExample "useThing"

end MacroforgeShared
